import Mathlib

/-!
Verification development for the SNMP host-discovery sweep script
(`SnmpScan.ps1`).  The script is shallowly embedded: PowerShell string
operations (`-match` with the script's regular expressions, `.Trim()`,
`Sort-Object`, `-split`, `-replace`) are translated into executable Lean
functions over `List Char` / `String`, the probe pipeline becomes a pure
function from a modelled launch result to an outcome, and the two
concurrency strategies are modelled functionally plus as a small-step
bounded-pool system.
-/

set_option maxRecDepth 8192

namespace SnmpScan

/-! ### Character and string helpers (PowerShell semantics) -/

/-- Case-insensitive character equality, as used by PowerShell `-match`
(which is case-insensitive by default). -/
def ciCharEq (a b : Char) : Bool :=
  a.toLower == b.toLower

/-- Strip a literal pattern from the front of `cs`, comparing
case-insensitively; returns the remainder on success. -/
def ciStrip : List Char → List Char → Option (List Char)
  | [], cs => some cs
  | _ :: _, [] => none
  | p :: ps, c :: cs => if ciCharEq p c then ciStrip ps cs else none

/-- Case-insensitive substring test: does `pat` occur (up to case) as a
contiguous segment anywhere in `cs`?  This is the semantics of the
PowerShell operator `-match` applied to a regex that is a literal. -/
def ciSubstringL (pat : List Char) : List Char → Bool
  | [] => pat.isEmpty
  | c :: cs => (ciStrip pat (c :: cs)).isSome || ciSubstringL pat cs

/-- Trim characters satisfying `p` from both ends of a list
(the semantics of .NET `String.Trim`). -/
def trimEndsBy (p : Char → Bool) (cs : List Char) : List Char :=
  ((cs.dropWhile p).reverse.dropWhile p).reverse

/-- Whitespace trim: `.Trim()`. -/
def trimWsL (cs : List Char) : List Char :=
  trimEndsBy Char.isWhitespace cs

/-- Quote trim: `.Trim const quote`, i.e. the script's `.Trim(double-quote)`. -/
def trimQuotesL (cs : List Char) : List Char :=
  trimEndsBy (fun c => c == '"') cs

/-! ### Response parser: the `STRING:` extraction of `Invoke-SnmpCheck`

The script runs, in order:
  `$output -match 'STRING:\s*"(.*)"'`   (capture, then `.Trim()`)
  `$output -match 'STRING:\s*(.+?)(\s|$)'` (capture, `.Trim('"').Trim()`)
  otherwise `$output.Trim()`.
The two regex matchers below reproduce .NET leftmost-first backtracking
semantics for exactly these two patterns (`.` does not match a newline,
`\s*` is greedy, `(.*)` is greedy, `(.+?)` is lazy). -/

/-- The literal marker `STRING:` of both extraction regexes. -/
def stringMarker : List Char :=
  ['S', 'T', 'R', 'I', 'N', 'G', ':']

/-- Drop the (greedy) run of whitespace matched by `\s*`. -/
def dropWs (cs : List Char) : List Char :=
  cs.dropWhile Char.isWhitespace

/-- Content strictly before the last double quote of `cs`, when `cs`
contains one: the greedy `(.*)"` suffix of the quoted-string pattern. -/
def lastQuoteSplit (cs : List Char) : Option (List Char) :=
  match cs.reverse.dropWhile (fun c => c ≠ '"') with
  | '"' :: restRev => some restRev.reverse
  | _ => none

/-- Attempt the tail `\s*"(.*)"` of the quoted pattern at the position
right after a `STRING:` marker.  `\s*` is greedy and must be followed by
an opening quote; `(.*)` then captures up to the last quote on the same
line (`.` cannot cross a newline). -/
def quotedAt (cs : List Char) : Option (List Char) :=
  match dropWs cs with
  | '"' :: rest => lastQuoteSplit (rest.takeWhile (fun c => c ≠ '\n'))
  | _ => none

/-- Attempt the tail `\s*(.+?)(\s|$)` of the token pattern at the position
right after a `STRING:` marker.  Greedy `\s*` then a lazy non-empty
capture ending at the next whitespace or at the end of input; when the
whole remainder is whitespace, backtracking hands the last non-newline
whitespace character to `(.+?)`. -/
def tokenAt (cs : List Char) : Option (List Char) :=
  match cs with
  | [] => none
  | _ :: _ =>
    match dropWs cs with
    | c :: rest => some (c :: rest.takeWhile (fun d => ¬ d.isWhitespace))
    | [] =>
      match cs.reverse.dropWhile (fun c => c == '\n') with
      | d :: _ => some [d]
      | [] => none

/-- Leftmost match of `STRING:\s*"(.*)"` over the whole input: try the
pattern at every start position, left to right. -/
def findQuoted : List Char → Option (List Char)
  | [] => none
  | c :: cs =>
    match (ciStrip stringMarker (c :: cs)).bind quotedAt with
    | some cap => some cap
    | none => findQuoted cs

/-- Leftmost match of `STRING:\s*(.+?)(\s|$)` over the whole input. -/
def findToken : List Char → Option (List Char)
  | [] => none
  | c :: cs =>
    match (ciStrip stringMarker (c :: cs)).bind tokenAt with
    | some cap => some cap
    | none => findToken cs

/-- The value-extraction cascade of `Invoke-SnmpCheck` on raw output. -/
def extractL (cs : List Char) : List Char :=
  match findQuoted cs with
  | some cap => trimWsL cap
  | none =>
    match findToken cs with
    | some cap => trimWsL (trimQuotesL cap)
    | none => trimWsL cs

/-- `extract` lifted to `String`: total value extraction from raw probe
output, per the parser contract. -/
def extract (raw : String) : String :=
  String.mk (extractL raw.data)

/-! ### Negative-indicator classification -/

/-- The script's test `$output -match 'Timeout|No Such Object'`:
case-insensitive substring search for either literal, anywhere in the
output. -/
def containsNegativeMarker (s : String) : Bool :=
  ciSubstringL "Timeout".data s.data || ciSubstringL "No Such Object".data s.data

/-- Case-insensitive equality of character lists (the specification-level
notion of "the same letters in any case"). -/
def EqCI (xs ys : List Char) : Prop :=
  xs.map Char.toLower = ys.map Char.toLower

/-- Specification-level containment: `pat` occurs, up to letter case, as a
contiguous segment somewhere in `s`. -/
def ContainsCI (pat s : String) : Prop :=
  ∃ l m r, s.data = l ++ m ++ r ∧ EqCI m pat.data

/-! ### Probe Executor: `Invoke-SnmpCheck` -/

/-- Observable result of running the external query tool: either the
launch failed (the script's `catch` branch) or it produced the given
standard-output text (standard error is discarded by `2>$null`; an
invocation that prints nothing is modelled by the empty string, which is
exactly what the `-not $output` test observes). -/
inductive LaunchResult where
  | failure
  | success (output : String)
  deriving DecidableEq

/-- Outcome of one probe, per the Probe Executor contract. -/
inductive ProbeOutcome where
  | NoResponse
  | Value (v : String)
  deriving DecidableEq

/-- A surviving `{address, extractedValue}` record
(the script's `[PSCustomObject]@{ IP = ...; ProductName = ... }`). -/
structure ResultRecord where
  ip : String
  productName : String
  deriving DecidableEq

/-- The body of `Invoke-SnmpCheck` after the tool has run: `catch` and the
empty-output and negative-marker tests return `$null`; otherwise the
extraction cascade builds a record. -/
def snmpCheckRecord (ip : String) (r : LaunchResult) : Option ResultRecord :=
  match r with
  | .failure => none
  | .success output =>
    if output = "" then none
    else if containsNegativeMarker output then none
    else some ⟨ip, extract output⟩

/-- The same pipeline at the `ProbeOutcome` abstraction of the contract. -/
def probeOutcome (r : LaunchResult) : ProbeOutcome :=
  match snmpCheckRecord "" r with
  | none => .NoResponse
  | some rec => .Value rec.productName

/-! ### Tool invocation shape -/

/-- How an external tool invocation is issued: either a discrete argument
vector handed to the process (`& $SnmpExe @args`), or a single shell
command string handed to an evaluator (`Invoke-Expression $cmd`). -/
inductive ToolInvocation where
  | argv (exe : String) (argList : List String)
  | shellEval (cmdText : String)
  deriving DecidableEq

/-- The argument vector built by `Invoke-SnmpCheck` (and, identically, by
the ThreadJob scriptblock):
`@("-v2c","-c",$Community,"-t",$Timeout,"-r","1",$IP,$OID)`. -/
def snmpArgVector (community : String) (timeout : Nat) (ip oid : String) : List String :=
  ["-v2c", "-c", community, "-t", toString timeout, "-r", "1", ip, oid]

/-- The invocation issued per probe in the refactored script. -/
def snmpInvocation (exe community : String) (timeout : Nat) (ip oid : String) : ToolInvocation :=
  .argv exe (snmpArgVector community timeout ip oid)

/-! ### AddressRange Resolver -/

/-- Consume the `\d+` of the network-format regex: one or more digits,
greedily (the following character is never a digit, so maximal munch is
exact). -/
def expectDigits : List Char → Option (List Char)
  | [] => none
  | c :: cs => if c.isDigit then some (cs.dropWhile Char.isDigit) else none

/-- Consume one expected literal character. -/
def expectChar (ch : Char) : List Char → Option (List Char)
  | [] => none
  | c :: cs => if c = ch then some cs else none

/-- The mandatory `\d+\.\d+\.\d+\.\d+` part of the network-format regex:
returns the remaining input after the fourth octet. -/
def parseSpecTail (cs : List Char) : Option (List Char) :=
  ((((((expectDigits cs).bind (expectChar '.')).bind expectDigits).bind
      (expectChar '.')).bind expectDigits).bind (expectChar '.')).bind expectDigits

/-- The .NET end anchor `$` (without `RegexOptions.Multiline`): it
matches at the very end of the input, or immediately before a single
trailing newline. -/
def endAnchor (cs : List Char) : Bool :=
  cs.isEmpty || cs == ['\n']

/-- The anchored regex `^\d+\.\d+\.\d+\.\d+(\/\d+)?$` used to validate
`$Network`: after the dotted quad, the `$` anchor must hold (end of
input, or one trailing newline), or the input carries a slash and one or
more digits followed by the `$` anchor. -/
def validNetworkSpecL (cs : List Char) : Bool :=
  match parseSpecTail cs with
  | none => false
  | some rest =>
    endAnchor rest ||
      match (expectChar '/' rest).bind expectDigits with
      | some rest' => endAnchor rest'
      | none => false

/-- Validity of a network specifier string. -/
def validNetworkSpec (s : String) : Bool :=
  validNetworkSpecL s.data

/-- A string consisting of one or more decimal digits (one octet, or a
mask value, of the accepted shape). -/
def DigitString (s : String) : Prop :=
  s.data ≠ [] ∧ ∀ c ∈ s.data, c.isDigit = true

/-- Specification-level shape of an accepted network specifier:
`A.B.C.D` or `A.B.C.D/mask` with digit octets and digit mask. -/
def ShapedSpec (s : String) : Prop :=
  ∃ a b c d : String, DigitString a ∧ DigitString b ∧ DigitString c ∧ DigitString d ∧
    (s = a ++ "." ++ b ++ "." ++ c ++ "." ++ d ∨
     ∃ m : String, DigitString m ∧ s = a ++ "." ++ b ++ "." ++ c ++ "." ++ d ++ "/" ++ m)

/-- The shape actually accepted by the code's `-match` test: an accepted
specifier, possibly carrying one trailing newline (which the .NET `$`
anchor tolerates). -/
def ShapedSpecNL (s : String) : Prop :=
  ShapedSpec s ∨ ∃ t : String, ShapedSpec t ∧ s = t ++ "\n"

/-- `($Network -split '/')[0]`: the part before the first slash. -/
def beforeSlash (cs : List Char) : List Char :=
  cs.takeWhile (fun c => c ≠ '/')

/-- The core of `-replace '\.\d+$', ''` applied at an anchor position:
`r` is the reversed input up to the anchor; a match needs one or more
digits and then a dot, and removing it leaves the reversed remainder. -/
def stripLastOctetCore (r : List Char) : Option (List Char) :=
  if r.takeWhile Char.isDigit ≠ [] ∧ (r.dropWhile Char.isDigit).head? = some '.' then
    some (r.dropWhile Char.isDigit).tail
  else none

/-- `-replace '\.\d+$', ''`: remove a final dot-plus-digits suffix when
present (the regex requires at least one digit after the dot).  The .NET
`$` anchor also fires immediately before a single trailing newline, in
which case the newline itself is kept. -/
def stripLastOctet (cs : List Char) : List Char :=
  if cs.reverse.head? = some '\n' then
    match stripLastOctetCore cs.reverse.tail with
    | some rest => ('\n' :: rest).reverse
    | none => cs
  else
    match stripLastOctetCore cs.reverse with
    | some rest => rest.reverse
    | none => cs

/-- `$BaseNetwork`: the network specifier with mask and fourth octet
discarded. -/
def baseNetwork (s : String) : String :=
  String.mk (stripLastOctet (beforeSlash s.data))

/-- Fatal scan errors. -/
inductive ScanError where
  | InvalidSpec
  | ToolNotFound
  deriving DecidableEq

/-- The resolver: validate the specifier, else `throw` before any other
work; on success derive the base network. -/
def resolve (spec : String) : Except ScanError String :=
  if validNetworkSpec spec then .ok (baseNetwork spec) else .error .InvalidSpec

/-- Decimal rendering of a natural number, fuel-driven so that it reduces
in the kernel: the digit characters of `n`, most significant first.
Models the string interpolation of `$_` in `"$using:BaseNetwork.$_"`. -/
def natCharsAux : Nat → Nat → List Char
  | 0, _ => []
  | fuel + 1, n =>
    if n < 10 then [Nat.digitChar n]
    else natCharsAux fuel (n / 10) ++ [Nat.digitChar (n % 10)]

/-- Decimal digit characters of `n` (fuel `n` always suffices). -/
def natChars (n : Nat) : List Char :=
  natCharsAux n n

/-- Decimal string of a natural number. -/
def natToString (n : Nat) : String :=
  String.mk (natChars n)

/-- Numeric value of a decimal digit character. -/
def digitVal (c : Char) : Nat :=
  c.toNat - '0'.toNat

/-- Numeric value of a digit-character list, most significant first. -/
def charsVal (cs : List Char) : Nat :=
  cs.foldl (fun a c => 10 * a + digitVal c) 0

/-- The host numbers of the fixed sweep, `1..254`. -/
def hostNums : List Nat :=
  List.range' 1 254

/-- The probed addresses `"$BaseNetwork.$_"` for `$_` in `1..254`. -/
def targets (base : String) : List String :=
  hostNums.map (fun n => base ++ "." ++ natToString n)

/-- The addresses a scan of `spec` dispatches probes to: none at all when
resolution fails. -/
def scanTargets (spec : String) : List String :=
  match resolve spec with
  | .ok base => targets base
  | .error _ => []

/-- Number of probe invocations a scan of `spec` performs. -/
def probeInvocations (spec : String) : Nat :=
  (scanTargets spec).length

/-! ### Result Aggregator -/

/-- Ordinal (code-point) comparison of character lists: the string
ordering used by `Sort-Object` on the `IP` property (for addresses made
of digits and dots, culture comparison agrees with code-point order). -/
def lexLeChars : List Char → List Char → Bool
  | [], _ => true
  | _ :: _, [] => false
  | a :: as, b :: bs =>
    if a.val < b.val then true
    else if b.val < a.val then false
    else lexLeChars as bs

/-- Stable insertion by ascending `IP` string. -/
def insertByIP (r : ResultRecord) : List ResultRecord → List ResultRecord
  | [] => [r]
  | x :: xs => if lexLeChars r.ip.data x.ip.data then r :: x :: xs else x :: insertByIP r xs

/-- `Sort-Object IP` over the surviving records. -/
def sortByIP (rs : List ResultRecord) : List ResultRecord :=
  rs.foldr insertByIP []

/-- PowerShell truthiness of the collected `$Results`, as tested by
`if ($Results)`: an empty collection is false, a single element is as
true as that element (`$null` is false, an object is true), and any
collection of two or more elements is true regardless of contents. -/
def psTruthy (results : List (Option ResultRecord)) : Bool :=
  match results with
  | [] => false
  | [x] => x.isSome
  | _ :: _ :: _ => true

/-- The final report: either the distinguished `"No snmp devices"`
notice, or a rendered table of records. -/
inductive ScanReport where
  | noDevices
  | table (rows : List ResultRecord)
  deriving DecidableEq

/-- The script's reporting step:
`if ($Results) { $Results | Where-Object { $_ } | Sort-Object IP | ... }
else { "No snmp devices" }`. -/
def aggregate (results : List (Option ResultRecord)) : ScanReport :=
  if psTruthy results then .table (sortByIP (results.filterMap id)) else .noDevices

/-! ### Concurrency Controller -/

/-- The `$MaxThreads` constant: the concurrency cap. -/
def maxThreads : Nat := 100

/-- The value passed as `-ThrottleLimit` on the primary
`ForEach-Object -Parallel` path. -/
def throttleLimitArg : Nat := maxThreads

/-- Primary strategy at the outcome level: the parallel map dispatches
each target to the probe exactly once; per-target tasks are independent
and all are awaited, so the collected outcomes are one per target. -/
def sweepPrimary (f : String → ProbeOutcome) (ts : List String) : List (String × ProbeOutcome) :=
  ts.map (fun t => (t, f t))

/-- Fallback strategy, job-submission loop: `$jobs += Start-ThreadJob`
once per target, in order. -/
def submitJobs (f : String → ProbeOutcome) (ts : List String) : List (String × ProbeOutcome) :=
  ts.foldl (fun jobs t => jobs ++ [(t, f t)]) []

/-- Fallback strategy result collection: `Receive-Job -Job $jobs -Wait`
collects every submitted job's outcome. -/
def sweepFallback (f : String → ProbeOutcome) (ts : List String) : List (String × ProbeOutcome) :=
  submitJobs f ts

/-- State of the fallback worker pool: targets not yet submitted, number
of jobs currently running, number of completed jobs. -/
structure PoolState where
  pending : List String
  running : Nat
  completed : Nat
  deriving DecidableEq

/-- One step of the fallback loop under cap `cap`.  A new job is
submitted only after the throttle loop
`while (running-count ≥ $MaxThreads) { Start-Sleep ... }` has observed
fewer than `cap` running jobs; independently, any running job may
finish. -/
inductive PoolStep (cap : Nat) : PoolState → PoolState → Prop
  | submit (t : String) (ts : List String) (r d : Nat) :
      r < cap → PoolStep cap ⟨t :: ts, r, d⟩ ⟨ts, r + 1, d⟩
  | finish (ts : List String) (r d : Nat) :
      PoolStep cap ⟨ts, r + 1, d⟩ ⟨ts, r, d + 1⟩

/-- Reachability from the initial state (all targets pending, nothing
running). -/
inductive PoolReachable (cap : Nat) (ts : List String) : PoolState → Prop
  | init : PoolReachable cap ts ⟨ts, 0, 0⟩
  | step {s t : PoolState} :
      PoolReachable cap ts s → PoolStep cap s t → PoolReachable cap ts t

/-! ### List helper lemmas -/

theorem takeWhile_append_all {p : Char → Bool} :
    ∀ (xs ys : List Char), (∀ x ∈ xs, p x = true) →
      (xs ++ ys).takeWhile p = xs ++ ys.takeWhile p := by
  intro xs ys h
  induction xs with
  | nil => simp
  | cons x xs ih =>
    have hx : p x = true := h x (by simp)
    simp only [List.cons_append, List.takeWhile_cons, hx, if_true]
    rw [ih (fun a ha => h a (by simp [ha]))]

theorem dropWhile_append_all {p : Char → Bool} :
    ∀ (xs ys : List Char), (∀ x ∈ xs, p x = true) →
      (xs ++ ys).dropWhile p = ys.dropWhile p := by
  intro xs ys h
  induction xs with
  | nil => simp
  | cons x xs ih =>
    have hx : p x = true := h x (by simp)
    simp only [List.cons_append, List.dropWhile_cons, hx, if_true]
    exact ih (fun a ha => h a (by simp [ha]))

theorem takeWhile_cons_neg {p : Char → Bool} {y : Char} (ys : List Char)
    (h : p y = false) : (y :: ys).takeWhile p = [] := by
  simp [List.takeWhile_cons, h]

theorem dropWhile_cons_neg {p : Char → Bool} {y : Char} (ys : List Char)
    (h : p y = false) : (y :: ys).dropWhile p = y :: ys := by
  simp [List.dropWhile_cons, h]

theorem mem_takeWhile_sat {p : Char → Bool} :
    ∀ {xs : List Char} {a : Char}, a ∈ xs.takeWhile p → p a = true := by
  intro xs
  induction xs with
  | nil => intro a ha; simp [List.takeWhile] at ha
  | cons x xs ih =>
    intro a ha
    rw [List.takeWhile_cons] at ha
    by_cases hx : p x = true
    · simp [hx] at ha
      rcases ha with rfl | ha
      · exact hx
      · exact ih ha
    · simp [Bool.eq_false_iff.mpr hx] at ha

/-! ### Decimal rendering: round trip and injectivity -/

theorem digitVal_digitChar : ∀ n < 10, digitVal (Nat.digitChar n) = n := by decide

theorem charsVal_append_singleton (cs : List Char) (c : Char) :
    charsVal (cs ++ [c]) = 10 * charsVal cs + digitVal c := by
  unfold charsVal
  rw [List.foldl_append]
  rfl

theorem charsVal_natCharsAux :
    ∀ (fuel n : Nat), n ≤ fuel → charsVal (natCharsAux fuel n) = n := by
  intro fuel
  induction fuel with
  | zero =>
    intro n h
    have : n = 0 := Nat.le_zero.mp h
    subst this
    rfl
  | succ f ih =>
    intro n h
    by_cases h10 : n < 10
    · simp only [natCharsAux, h10, if_true]
      show 10 * 0 + digitVal (Nat.digitChar n) = n
      rw [Nat.mul_zero, Nat.zero_add]
      exact digitVal_digitChar n h10
    · simp only [natCharsAux, h10, if_false]
      rw [charsVal_append_singleton]
      have hdiv : n / 10 ≤ f := by omega
      rw [ih (n / 10) hdiv, digitVal_digitChar (n % 10) (Nat.mod_lt n (by omega))]
      omega

theorem charsVal_natChars (n : Nat) : charsVal (natChars n) = n :=
  charsVal_natCharsAux n n (Nat.le_refl n)

theorem natChars_injective : Function.Injective natChars := by
  intro a b h
  have ha := charsVal_natChars a
  have hb := charsVal_natChars b
  rw [← ha, ← hb, h]

theorem natToString_injective : Function.Injective natToString := by
  intro a b h
  exact natChars_injective (congrArg String.data h)

theorem natToString_data (n : Nat) : (natToString n).data = natChars n := rfl

/-! ### Targets: enumeration facts -/

theorem tag_injective (base : String) :
    Function.Injective (fun n => base ++ "." ++ natToString n) := by
  intro a b h
  apply natToString_injective
  apply String.ext
  have hd := congrArg String.data h
  simp only [String.data_append, List.append_assoc] at hd
  have h1 := List.append_cancel_left hd
  exact List.append_cancel_left h1

theorem targets_length (base : String) : (targets base).length = 254 := by
  simp [targets, hostNums]

theorem targets_nodup (base : String) : (targets base).Nodup :=
  (List.nodup_range' 1 254).map (tag_injective base)

theorem mem_targets_of_host (base : String) {n : Nat} (h1 : 1 ≤ n) (h2 : n ≤ 254) :
    base ++ "." ++ natToString n ∈ targets base := by
  apply List.mem_map_of_mem
  rw [hostNums, List.mem_range']
  exact ⟨n - 1, by omega, by omega⟩

theorem mem_targets_elim (base : String) {t : String} (h : t ∈ targets base) :
    ∃ n, 1 ≤ n ∧ n ≤ 254 ∧ t = base ++ "." ++ natToString n := by
  rcases List.mem_map.mp h with ⟨n, hn, rfl⟩
  rw [hostNums, List.mem_range'] at hn
  rcases hn with ⟨i, hi, rfl⟩
  exact ⟨1 + 1 * i, by omega, by omega, rfl⟩

theorem suffix_not_mem_targets (base : String) {z : String} (hz : charsVal z.data ≥ 255 ∨ charsVal z.data = 0) :
    base ++ "." ++ z ∉ targets base := by
  intro hmem
  rcases mem_targets_elim base hmem with ⟨n, h1, h2, heq⟩
  have hd := congrArg String.data heq
  simp only [String.data_append, List.append_assoc] at hd
  have hz' : (natToString n).data = z.data :=
    List.append_cancel_left (List.append_cancel_left hd.symm)
  have : charsVal z.data = n := by
    rw [← hz', natToString_data, charsVal_natChars]
  omega

/-! ### Fallback job loop -/

theorem submitJobs_eq_map (f : String → ProbeOutcome) (ts : List String) :
    submitJobs f ts = ts.map (fun t => (t, f t)) := by
  have haux : ∀ (us : List String) (acc : List (String × ProbeOutcome)),
      us.foldl (fun jobs t => jobs ++ [(t, f t)]) acc = acc ++ us.map (fun t => (t, f t)) := by
    intro us
    induction us with
    | nil => intro acc; simp
    | cons u us ih => intro acc; simp [ih]
  simpa using haux ts []

/-! ### Case-insensitive substring scanner: correctness -/

theorem ciStrip_of_eqCI :
    ∀ (pat m r : List Char), EqCI m pat → ciStrip pat (m ++ r) = some r := by
  intro pat
  induction pat with
  | nil =>
    intro m r h
    have hm : m = [] := by
      rcases m with _ | ⟨c, m'⟩
      · rfl
      · exact absurd h (by simp [EqCI])
    subst hm
    rfl
  | cons p ps ih =>
    intro m r h
    rcases m with _ | ⟨c, m'⟩
    · exact absurd h (by simp [EqCI])
    · unfold EqCI at h
      simp only [List.map_cons, List.cons.injEq] at h
      obtain ⟨h1, h2⟩ := h
      simp only [List.cons_append, ciStrip, ciCharEq, h1, beq_self_eq_true, if_true]
      exact ih m' r h2

theorem ciStrip_eq_some :
    ∀ (pat cs r : List Char), ciStrip pat cs = some r → ∃ m, cs = m ++ r ∧ EqCI m pat := by
  intro pat
  induction pat with
  | nil =>
    intro cs r h
    simp only [ciStrip, Option.some.injEq] at h
    exact ⟨[], by simp [h], by simp [EqCI]⟩
  | cons p ps ih =>
    intro cs r h
    rcases cs with _ | ⟨c, cs'⟩
    · simp [ciStrip] at h
    · simp only [ciStrip] at h
      by_cases hc : ciCharEq p c = true
      · rw [if_pos hc] at h
        rcases ih cs' r h with ⟨m', hm', hci⟩
        refine ⟨c :: m', by simp [hm'], ?_⟩
        unfold ciCharEq at hc
        unfold EqCI at hci ⊢
        simp only [List.map_cons, List.cons.injEq]
        exact ⟨(beq_iff_eq.mp hc).symm, hci⟩
      · rw [if_neg hc] at h
        exact absurd h (by simp)

theorem ciSubstringL_of_parts :
    ∀ (l m r pat : List Char), EqCI m pat → ciSubstringL pat (l ++ m ++ r) = true := by
  intro l
  induction l with
  | nil =>
    intro m r pat h
    have hstrip := ciStrip_of_eqCI pat m r h
    rcases hmr : m ++ r with _ | ⟨c, cs⟩
    · rcases m with _ | ⟨c, m'⟩
      · have hpat : pat = [] := by
          rcases pat with _ | ⟨p, ps⟩
          · rfl
          · exact absurd h (by simp [EqCI])
        subst hpat
        have hr : r = [] := by simpa using hmr
        subst hr
        rfl
      · simp at hmr
    · simp only [List.nil_append, hmr, ciSubstringL]
      rw [← hmr, hstrip]
      simp
  | cons x l ih =>
    intro m r pat h
    show ciSubstringL pat (x :: (l ++ m ++ r)) = true
    unfold ciSubstringL
    rw [ih m r pat h]
    simp

theorem parts_of_ciSubstringL :
    ∀ (cs pat : List Char), ciSubstringL pat cs = true →
      ∃ l m r, cs = l ++ m ++ r ∧ EqCI m pat := by
  intro cs
  induction cs with
  | nil =>
    intro pat h
    simp only [ciSubstringL, List.isEmpty_iff] at h
    subst h
    exact ⟨[], [], [], rfl, by simp [EqCI]⟩
  | cons c cs' ih =>
    intro pat h
    simp only [ciSubstringL, Bool.or_eq_true] at h
    rcases h with h | h
    · rcases Option.isSome_iff_exists.mp h with ⟨r, hr⟩
      rcases ciStrip_eq_some pat (c :: cs') r hr with ⟨m, hm, hci⟩
      exact ⟨[], m, r, by simp [hm], hci⟩
    · rcases ih pat h with ⟨l, m, r, hlmr, hci⟩
      exact ⟨c :: l, m, r, by simp [hlmr], hci⟩

theorem containsCI_iff (pat s : String) :
    ContainsCI pat s ↔ ciSubstringL pat.data s.data = true := by
  constructor
  · rintro ⟨l, m, r, hs, hci⟩
    rw [hs]
    exact ciSubstringL_of_parts l m r pat.data hci
  · intro h
    exact parts_of_ciSubstringL s.data pat.data h

theorem containsNegativeMarker_iff (s : String) :
    containsNegativeMarker s = true ↔
      ContainsCI "Timeout" s ∨ ContainsCI "No Such Object" s := by
  unfold containsNegativeMarker
  rw [Bool.or_eq_true, ← containsCI_iff, ← containsCI_iff]

/-! ### Network-specifier regex: composition and parsing -/

theorem expectDigits_digits_rest {ds rest : List Char} (hne : ds ≠ [])
    (hdig : ∀ c ∈ ds, c.isDigit = true)
    (hrest : rest = [] ∨ ∃ y ys, rest = y :: ys ∧ y.isDigit = false) :
    expectDigits (ds ++ rest) = some rest := by
  rcases ds with _ | ⟨c, ds'⟩
  · exact absurd rfl hne
  · have hc : c.isDigit = true := hdig c (by simp)
    simp only [List.cons_append, expectDigits, hc, if_true, Option.some.injEq]
    rw [dropWhile_append_all ds' rest (fun a ha => hdig a (by simp [ha]))]
    rcases hrest with rfl | ⟨y, ys, rfl, hy⟩
    · rfl
    · exact dropWhile_cons_neg ys hy

theorem expectChar_cons (ch : Char) (cs : List Char) :
    expectChar ch (ch :: cs) = some cs := by
  simp [expectChar]

theorem expectDigits_parse {cs rest : List Char} (h : expectDigits cs = some rest) :
    ∃ ds, cs = ds ++ rest ∧ ds ≠ [] ∧ ∀ c ∈ ds, c.isDigit = true := by
  rcases cs with _ | ⟨c, cs'⟩
  · simp [expectDigits] at h
  · simp only [expectDigits] at h
    by_cases hc : c.isDigit = true
    · rw [if_pos hc] at h
      refine ⟨c :: cs'.takeWhile Char.isDigit, ?_, by simp, ?_⟩
      · have := List.takeWhile_append_dropWhile Char.isDigit cs'
        simp only [Option.some.injEq] at h
        rw [List.cons_append, this.symm] at *
        simp [← h, List.takeWhile_append_dropWhile]
      · intro x hx
        rcases List.mem_cons.mp hx with rfl | hx'
        · exact hc
        · exact mem_takeWhile_sat hx'
    · rw [if_neg hc] at h
      exact absurd h (by simp)

theorem expectChar_parse {ch : Char} {cs rest : List Char}
    (h : expectChar ch cs = some rest) : cs = ch :: rest := by
  rcases cs with _ | ⟨c, cs'⟩
  · simp [expectChar] at h
  · simp only [expectChar] at h
    by_cases hc : c = ch
    · rw [if_pos hc] at h
      simp only [Option.some.injEq] at h
      rw [hc, h]
    · rw [if_neg hc] at h
      exact absurd h (by simp)

theorem digit_not_slash {c : Char} (h : c.isDigit = true) : (c = '/') = False := by
  simp only [eq_iff_iff, iff_false]
  intro hc
  subst hc
  simp at h

theorem digitString_chars_ne_slash {s : String} (h : DigitString s) :
    ∀ c ∈ s.data, decide (c ≠ '/') = true := by
  intro c hc
  have hd := h.2 c hc
  simp only [ne_eq, decide_eq_true_eq]
  intro heq
  subst heq
  simp at hd

theorem parseSpecTail_compose (a b c d : String) (tail : List Char)
    (ha : DigitString a) (hb : DigitString b) (hc : DigitString c) (hd : DigitString d)
    (htail : tail = [] ∨ ∃ y ys, tail = y :: ys ∧ y.isDigit = false) :
    parseSpecTail ((a ++ "." ++ b ++ "." ++ c ++ "." ++ d).data ++ tail) = some tail := by
  have hdata : (a ++ "." ++ b ++ "." ++ c ++ "." ++ d).data ++ tail =
      a.data ++ '.' :: (b.data ++ '.' :: (c.data ++ '.' :: (d.data ++ tail))) := by
    simp [String.data_append]
  unfold parseSpecTail
  rw [hdata]
  rw [expectDigits_digits_rest ha.1 ha.2 (Or.inr ⟨'.', _, rfl, by decide⟩)]
  rw [Option.some_bind, expectChar_cons, Option.some_bind]
  rw [expectDigits_digits_rest hb.1 hb.2 (Or.inr ⟨'.', _, rfl, by decide⟩)]
  rw [Option.some_bind, expectChar_cons, Option.some_bind]
  rw [expectDigits_digits_rest hc.1 hc.2 (Or.inr ⟨'.', _, rfl, by decide⟩)]
  rw [Option.some_bind, expectChar_cons, Option.some_bind]
  rw [expectDigits_digits_rest hd.1 hd.2 htail]

theorem valid_of_shaped {s : String} (h : ShapedSpec s) : validNetworkSpec s = true := by
  rcases h with ⟨a, b, c, d, ha, hb, hc, hd, hcase⟩
  rcases hcase with rfl | ⟨m, hm, rfl⟩
  · unfold validNetworkSpec validNetworkSpecL
    have hP := parseSpecTail_compose a b c d [] ha hb hc hd (Or.inl rfl)
    rw [List.append_nil] at hP
    rw [hP]
    rfl
  · unfold validNetworkSpec validNetworkSpecL
    have hdata : (a ++ "." ++ b ++ "." ++ c ++ "." ++ d ++ "/" ++ m).data =
        (a ++ "." ++ b ++ "." ++ c ++ "." ++ d).data ++ '/' :: m.data := by
      simp [String.data_append]
    rw [hdata, parseSpecTail_compose a b c d ('/' :: m.data) ha hb hc hd
      (Or.inr ⟨'/', m.data, rfl, by decide⟩)]
    have hM : expectDigits m.data = some [] := by
      have := @expectDigits_digits_rest m.data [] hm.1 hm.2 (Or.inl rfl)
      simpa using this
    show (endAnchor ('/' :: m.data) ||
        match (expectChar '/' ('/' :: m.data)).bind expectDigits with
        | some rest' => endAnchor rest'
        | none => false) = true
    rw [expectChar_cons, Option.some_bind, hM]
    rfl

theorem valid_of_shapedNL {s : String} (h : ShapedSpecNL s) : validNetworkSpec s = true := by
  rcases h with h | ⟨t, ht, rfl⟩
  · exact valid_of_shaped h
  rcases ht with ⟨a, b, c, d, ha, hb, hc, hd, hcase⟩
  rcases hcase with rfl | ⟨m, hm, rfl⟩
  · unfold validNetworkSpec validNetworkSpecL
    have hdata : ((a ++ "." ++ b ++ "." ++ c ++ "." ++ d) ++ "\n").data =
        (a ++ "." ++ b ++ "." ++ c ++ "." ++ d).data ++ ['\n'] := by
      simp [String.data_append]
    rw [hdata, parseSpecTail_compose a b c d ['\n'] ha hb hc hd
      (Or.inr ⟨'\n', [], rfl, by decide⟩)]
    rfl
  · unfold validNetworkSpec validNetworkSpecL
    have hdata : ((a ++ "." ++ b ++ "." ++ c ++ "." ++ d ++ "/" ++ m) ++ "\n").data =
        (a ++ "." ++ b ++ "." ++ c ++ "." ++ d).data ++ '/' :: (m.data ++ ['\n']) := by
      simp [String.data_append]
    rw [hdata, parseSpecTail_compose a b c d ('/' :: (m.data ++ ['\n'])) ha hb hc hd
      (Or.inr ⟨'/', _, rfl, by decide⟩)]
    have hM : expectDigits (m.data ++ ['\n']) = some ['\n'] :=
      expectDigits_digits_rest hm.1 hm.2 (Or.inr ⟨'\n', [], rfl, by decide⟩)
    show (endAnchor ('/' :: (m.data ++ ['\n'])) ||
        match (expectChar '/' ('/' :: (m.data ++ ['\n']))).bind expectDigits with
        | some rest' => endAnchor rest'
        | none => false) = true
    rw [expectChar_cons, Option.some_bind, hM]
    rfl

theorem parseSpecTail_parse {cs rest : List Char} (h : parseSpecTail cs = some rest) :
    ∃ A B C D : List Char,
      (A ≠ [] ∧ ∀ x ∈ A, x.isDigit = true) ∧ (B ≠ [] ∧ ∀ x ∈ B, x.isDigit = true) ∧
      (C ≠ [] ∧ ∀ x ∈ C, x.isDigit = true) ∧ (D ≠ [] ∧ ∀ x ∈ D, x.isDigit = true) ∧
      cs = A ++ '.' :: (B ++ '.' :: (C ++ '.' :: (D ++ rest))) := by
  unfold parseSpecTail at h
  rcases h1 : expectDigits cs with _ | r1
  · rw [h1] at h; simp at h
  rw [h1, Option.some_bind] at h
  rcases h2 : expectChar '.' r1 with _ | r2
  · rw [h2] at h; simp at h
  rw [h2, Option.some_bind] at h
  rcases h3 : expectDigits r2 with _ | r3
  · rw [h3] at h; simp at h
  rw [h3, Option.some_bind] at h
  rcases h4 : expectChar '.' r3 with _ | r4
  · rw [h4] at h; simp at h
  rw [h4, Option.some_bind] at h
  rcases h5 : expectDigits r4 with _ | r5
  · rw [h5] at h; simp at h
  rw [h5, Option.some_bind] at h
  rcases h6 : expectChar '.' r5 with _ | r6
  · rw [h6] at h; simp at h
  rw [h6, Option.some_bind] at h
  rcases expectDigits_parse h with ⟨D, hD, hDne, hDdig⟩
  rcases expectDigits_parse h5 with ⟨C, hC, hCne, hCdig⟩
  rcases expectDigits_parse h3 with ⟨B, hB, hBne, hBdig⟩
  rcases expectDigits_parse h1 with ⟨A, hA, hAne, hAdig⟩
  refine ⟨A, B, C, D, ⟨hAne, hAdig⟩, ⟨hBne, hBdig⟩, ⟨hCne, hCdig⟩, ⟨hDne, hDdig⟩, ?_⟩
  rw [hA, expectChar_parse h2, hB, expectChar_parse h4, hC, expectChar_parse h6, hD]

theorem endAnchor_cases {cs : List Char} (h : endAnchor cs = true) :
    cs = [] ∨ cs = ['\n'] := by
  unfold endAnchor at h
  rw [Bool.or_eq_true] at h
  rcases h with h1 | h2
  · exact Or.inl (List.isEmpty_iff.mp h1)
  · exact Or.inr (by simpa using h2)

theorem shapedNL_of_valid {s : String} (h : validNetworkSpec s = true) : ShapedSpecNL s := by
  unfold validNetworkSpec validNetworkSpecL at h
  rcases hP : parseSpecTail s.data with _ | rest
  · rw [hP] at h; simp at h
  rw [hP] at h
  rcases parseSpecTail_parse hP with ⟨A, B, C, D, hA, hB, hC, hD, hcs⟩
  have h' : (endAnchor rest ||
      match (expectChar '/' rest).bind expectDigits with
      | some rest' => endAnchor rest'
      | none => false) = true := h
  rw [Bool.or_eq_true] at h'
  rcases h' with hend | hmask
  · rcases endAnchor_cases hend with rfl | rfl
    · refine Or.inl ⟨⟨A⟩, ⟨B⟩, ⟨C⟩, ⟨D⟩, hA, hB, hC, hD, Or.inl ?_⟩
      apply String.ext
      rw [hcs]
      simp [String.data_append]
    · refine Or.inr ⟨⟨A⟩ ++ "." ++ ⟨B⟩ ++ "." ++ ⟨C⟩ ++ "." ++ ⟨D⟩,
        ⟨⟨A⟩, ⟨B⟩, ⟨C⟩, ⟨D⟩, hA, hB, hC, hD, Or.inl rfl⟩, ?_⟩
      apply String.ext
      rw [hcs]
      simp [String.data_append]
  · rcases hE : expectChar '/' rest with _ | r7
    · rw [hE] at hmask; simp at hmask
    rw [hE, Option.some_bind] at hmask
    rcases hD2 : expectDigits r7 with _ | r8
    · rw [hD2] at hmask; simp at hmask
    rw [hD2] at hmask
    have hend : endAnchor r8 = true := hmask
    have hy := expectChar_parse hE
    rcases expectDigits_parse hD2 with ⟨M, hM, hMne, hMdig⟩
    rcases endAnchor_cases hend with rfl | rfl
    · rw [List.append_nil] at hM
      refine Or.inl ⟨⟨A⟩, ⟨B⟩, ⟨C⟩, ⟨D⟩, hA, hB, hC, hD, Or.inr ⟨⟨M⟩, ⟨hMne, hMdig⟩, ?_⟩⟩
      apply String.ext
      rw [hcs, hy, hM]
      simp [String.data_append]
    · have hts : ShapedSpec (String.mk A ++ "." ++ String.mk B ++ "." ++ String.mk C ++ "." ++
          String.mk D ++ "/" ++ String.mk M) :=
        ⟨String.mk A, String.mk B, String.mk C, String.mk D, hA, hB, hC, hD,
          Or.inr ⟨String.mk M, ⟨hMne, hMdig⟩, rfl⟩⟩
      refine Or.inr ⟨_, hts, ?_⟩
      apply String.ext
      rw [hcs, hy, hM]
      simp [String.data_append]

theorem valid_iff_shapedNL (s : String) : validNetworkSpec s = true ↔ ShapedSpecNL s :=
  ⟨shapedNL_of_valid, valid_of_shapedNL⟩

theorem shapedSpec_getLast_digit {s : String} (h : ShapedSpec s) :
    ∃ c, s.data.getLast? = some c ∧ c.isDigit = true := by
  rcases h with ⟨a, b, c, d, _, _, _, hd, hcase⟩
  rcases hcase with rfl | ⟨m, hm, rfl⟩
  · rw [String.data_append, List.getLast?_append,
      List.getLast?_eq_getLast d.data hd.1]
    exact ⟨d.data.getLast hd.1, rfl, hd.2 _ (List.getLast_mem hd.1)⟩
  · rw [String.data_append, List.getLast?_append,
      List.getLast?_eq_getLast m.data hm.1]
    exact ⟨m.data.getLast hm.1, rfl, hm.2 _ (List.getLast_mem hm.1)⟩

theorem not_shaped_trailing_newline : ¬ ShapedSpec "1.2.3.4\n" := by
  intro h
  rcases shapedSpec_getLast_digit h with ⟨c, hlast, hdig⟩
  have hc : c = '\n' := by
    have hv : ("1.2.3.4\n").data.getLast? = some '\n' := by decide
    rw [hv] at hlast
    exact (Option.some.inj hlast).symm
  rw [hc] at hdig
  simp at hdig

/-! ### Base-network derivation -/

theorem beforeSlash_all (cs : List Char) (h : ∀ c ∈ cs, decide (c ≠ '/') = true) :
    beforeSlash cs = cs := by
  unfold beforeSlash
  simpa using takeWhile_append_all cs [] h

theorem beforeSlash_append_slash (cs ms : List Char)
    (h : ∀ c ∈ cs, decide (c ≠ '/') = true) :
    beforeSlash (cs ++ '/' :: ms) = cs := by
  unfold beforeSlash
  rw [takeWhile_append_all cs ('/' :: ms) h, takeWhile_cons_neg ms (by decide)]
  simp

theorem stripLastOctet_append (pre ds : List Char) (hne : ds ≠ [])
    (hdig : ∀ c ∈ ds, c.isDigit = true) :
    stripLastOctet (pre ++ '.' :: ds) = pre := by
  have hrev : (pre ++ '.' :: ds).reverse = ds.reverse ++ '.' :: pre.reverse := by
    rw [List.reverse_append]
    simp
  have hdigrev : ∀ c ∈ ds.reverse, c.isDigit = true :=
    fun c hcm => hdig c (List.mem_reverse.mp hcm)
  have hdsrev : ds.reverse ≠ [] := by
    intro hdsnil
    exact hne (by simpa using congrArg List.reverse hdsnil)
  have hhead : ¬ (pre ++ '.' :: ds).reverse.head? = some '\n' := by
    rw [hrev]
    rcases hds : ds.reverse with _ | ⟨d0, rest0⟩
    · exact absurd hds hdsrev
    · have hd0 : d0.isDigit = true := hdigrev d0 (by rw [hds]; simp)
      simp only [List.cons_append, List.head?_cons, Option.some.injEq]
      intro hcontra
      rw [hcontra] at hd0
      simp at hd0
  have hcore : stripLastOctetCore (pre ++ '.' :: ds).reverse = some pre.reverse := by
    unfold stripLastOctetCore
    have htake : (pre ++ '.' :: ds).reverse.takeWhile Char.isDigit = ds.reverse := by
      rw [hrev, takeWhile_append_all ds.reverse _ hdigrev, takeWhile_cons_neg _ (by decide)]
      simp
    have hdrop : (pre ++ '.' :: ds).reverse.dropWhile Char.isDigit = '.' :: pre.reverse := by
      rw [hrev, dropWhile_append_all ds.reverse _ hdigrev, dropWhile_cons_neg _ (by decide)]
    rw [if_pos]
    · rw [hdrop]
      rfl
    · refine ⟨?_, by rw [hdrop]; rfl⟩
      rw [htake]
      exact hdsrev
  unfold stripLastOctet
  rw [if_neg hhead, hcore]
  exact List.reverse_reverse pre

theorem specData_split (a b c d : String) :
    (a ++ "." ++ b ++ "." ++ c ++ "." ++ d).data =
      (a ++ "." ++ b ++ "." ++ c).data ++ '.' :: d.data := by
  simp [String.data_append]

theorem prefixData_ne_slash (a b c : String)
    (ha : DigitString a) (hb : DigitString b) (hc : DigitString c) :
    ∀ x ∈ (a ++ "." ++ b ++ "." ++ c).data, decide (x ≠ '/') = true := by
  intro x hx
  have hmem : x ∈ a.data ∨ x = '.' ∨ x ∈ b.data ∨ x ∈ c.data := by
    simp only [String.data_append, List.mem_append, List.mem_singleton] at hx
    tauto
  rcases hmem with hx' | rfl | hx' | hx'
  · exact digitString_chars_ne_slash ha x hx'
  · decide
  · exact digitString_chars_ne_slash hb x hx'
  · exact digitString_chars_ne_slash hc x hx'

theorem baseNetwork_noMask (a b c d : String)
    (ha : DigitString a) (hb : DigitString b) (hc : DigitString c) (hd : DigitString d) :
    baseNetwork (a ++ "." ++ b ++ "." ++ c ++ "." ++ d) = a ++ "." ++ b ++ "." ++ c := by
  unfold baseNetwork
  apply String.ext
  show stripLastOctet (beforeSlash (a ++ "." ++ b ++ "." ++ c ++ "." ++ d).data) =
    (a ++ "." ++ b ++ "." ++ c).data
  rw [beforeSlash_all]
  · rw [specData_split, stripLastOctet_append _ _ hd.1 hd.2]
  · intro x hx
    rw [specData_split] at hx
    rcases List.mem_append.mp hx with hx' | hx'
    · exact prefixData_ne_slash a b c ha hb hc x hx'
    · rcases List.mem_cons.mp hx' with rfl | hx''
      · decide
      · exact digitString_chars_ne_slash hd x hx''

/-! ### Pool invariant and probe classification helpers -/

theorem poolStep_preserves_cap {cap : Nat} {u v : PoolState}
    (hstep : PoolStep cap u v) (hu : u.running ≤ cap) : v.running ≤ cap := by
  cases hstep with
  | submit t ts r d hr => exact hr
  | finish ts r d => exact Nat.le_of_succ_le hu

theorem poolReachable_cap {cap : Nat} {ts : List String} {s : PoolState}
    (h : PoolReachable cap ts s) : s.running ≤ cap := by
  induction h with
  | init => exact Nat.zero_le cap
  | step _ hstep ih => exact poolStep_preserves_cap hstep ih

theorem snmpCheckRecord_success (ip o : String) :
    snmpCheckRecord ip (.success o) =
      if o = "" then none
      else if containsNegativeMarker o then none
      else some ⟨ip, extract o⟩ := rfl

theorem probeOutcome_success_cases (o : String) :
    probeOutcome (.success o) =
      if o = "" then .NoResponse
      else if containsNegativeMarker o then .NoResponse
      else .Value (extract o) := by
  unfold probeOutcome
  rw [snmpCheckRecord_success]
  by_cases h0 : o = ""
  · simp [h0]
  · by_cases hm : containsNegativeMarker o
    · simp [h0, hm]
    · simp [h0, hm]

theorem baseNetwork_mask (a b c d m : String)
    (ha : DigitString a) (hb : DigitString b) (hc : DigitString c) (hd : DigitString d) :
    baseNetwork (a ++ "." ++ b ++ "." ++ c ++ "." ++ d ++ "/" ++ m) = a ++ "." ++ b ++ "." ++ c := by
  unfold baseNetwork
  apply String.ext
  have hdata : (a ++ "." ++ b ++ "." ++ c ++ "." ++ d ++ "/" ++ m).data =
      (a ++ "." ++ b ++ "." ++ c ++ "." ++ d).data ++ '/' :: m.data := by
    simp [String.data_append]
  show stripLastOctet (beforeSlash (a ++ "." ++ b ++ "." ++ c ++ "." ++ d ++ "/" ++ m).data) =
    (a ++ "." ++ b ++ "." ++ c).data
  rw [hdata, beforeSlash_append_slash]
  · rw [specData_split, stripLastOctet_append _ _ hd.1 hd.2]
  · intro x hx
    rw [specData_split] at hx
    rcases List.mem_append.mp hx with hx' | hx'
    · exact prefixData_ne_slash a b c ha hb hc x hx'
    · rcases List.mem_cons.mp hx' with rfl | hx''
      · decide
      · exact digitString_chars_ne_slash hd x hx''

/-! ### Claim theorems -/

/-- C1: the claim says `aggregate` orders surviving records by the numeric
value of the address's last octet, reporting `.2, .10, .1` as
`.1, .2, .10` and never in lexicographic string order.  The code's
`Sort-Object IP` sorts the `IP` strings, so the report for these three
records comes out `.1, .10, .2` — the lexicographic order the claim
forbids, which differs from the claimed numeric order. -/
theorem C1_aggregate_sorts_lexicographically :
    aggregate [some ⟨"10.30.6.2", "B"⟩, some ⟨"10.30.6.10", "C"⟩, some ⟨"10.30.6.1", "A"⟩] =
      .table [⟨"10.30.6.1", "A"⟩, ⟨"10.30.6.10", "C"⟩, ⟨"10.30.6.2", "B"⟩] ∧
    ScanReport.table [⟨"10.30.6.1", "A"⟩, ⟨"10.30.6.10", "C"⟩, ⟨"10.30.6.2", "B"⟩] ≠
      ScanReport.table [⟨"10.30.6.1", "A"⟩, ⟨"10.30.6.2", "B"⟩, ⟨"10.30.6.10", "C"⟩] := by
  exact ⟨by decide, by decide⟩

/-- C2: the claim says an all-`NoResponse` input yields the distinguished
"no devices responded" empty report.  On the primary path every
`NoResponse` contributes a `$null` element to `$Results`, and
`if ($Results)` is true for a collection of two or more elements even
when all are `$null`, so the code renders an empty table instead of the
distinguished report; only a genuinely empty collection (the fallback
path) yields it. -/
theorem C2_allNoResponse_misses_empty_report :
    aggregate (List.replicate 254 (none : Option ResultRecord)) = .table [] ∧
    ScanReport.table [] ≠ ScanReport.noDevices ∧
    aggregate [] = ScanReport.noDevices ∧
    aggregate [some ⟨"10.30.6.5", "DeviceA"⟩] = .table [⟨"10.30.6.5", "DeviceA"⟩] := by
  exact ⟨by decide, by decide, by decide, by decide⟩

/-- C3: every probe invokes the external tool with the discrete argument
vector `[protocolVersion, credentialFlag, credentialValue, timeoutFlag,
timeoutValue, retryFlag, retryValue, targetAddress, queryIdentifier]`,
and never hands a concatenated command string to a shell evaluator. -/
theorem C3_invocation_argument_vector (exe community : String) (timeout : Nat) (ip oid : String) :
    snmpInvocation exe community timeout ip oid =
      .argv exe ["-v2c", "-c", community, "-t", toString timeout, "-r", "1", ip, oid] ∧
    (snmpArgVector community timeout ip oid).length = 9 ∧
    ∀ cmd, snmpInvocation exe community timeout ip oid ≠ .shellEval cmd := by
  refine ⟨rfl, rfl, fun cmd h => ?_⟩
  exact ToolInvocation.noConfusion h

/-- C4: `extract` is total (returns a string for every input, including
the empty string), applies first-match-wins priority — quoted segment
after `STRING:`, else unquoted token after `STRING:`, else the whole
input trimmed — and satisfies the three specified examples (plus an input
where both patterns occur, showing the quoted branch wins). -/
theorem C4_extract_total_priority_examples :
    (∀ raw : String, ∃ v : String, extract raw = v) ∧
    (∀ raw : String, ∀ cap, findQuoted raw.data = some cap →
       extract raw = String.mk (trimWsL cap)) ∧
    (∀ raw : String, ∀ cap, findQuoted raw.data = none → findToken raw.data = some cap →
       extract raw = String.mk (trimWsL (trimQuotesL cap))) ∧
    (∀ raw : String, findQuoted raw.data = none → findToken raw.data = none →
       extract raw = String.mk (trimWsL raw.data)) ∧
    extract "STRING: \"Model X\"" = "Model X" ∧
    extract "STRING: ModelX " = "ModelX" ∧
    extract "garbage text" = "garbage text" ∧
    extract "STRING: \"A B\" C" = "A B" ∧
    extract "" = "" := by
  refine ⟨fun raw => ⟨extract raw, rfl⟩, ?_, ?_, ?_, by decide, by decide, by decide, by decide, rfl⟩
  · intro raw cap h
    unfold extract extractL
    rw [h]
  · intro raw cap hq ht
    unfold extract extractL
    rw [hq, ht]
  · intro raw hq ht
    unfold extract extractL
    rw [hq, ht]

/-- C4 witness: the priority branches of `C4_extract_total_priority_examples`
fire at concrete inputs. -/
theorem C4_extract_witness :
    extract "STRING: \"Model X\"" = String.mk (trimWsL "Model X".data) ∧
    extract "garbage text" = String.mk (trimWsL "garbage text".data) :=
  ⟨C4_extract_total_priority_examples.2.1 "STRING: \"Model X\"" "Model X".data (by decide),
   C4_extract_total_priority_examples.2.2.2.1 "garbage text" (by decide) (by decide)⟩

/-- C5: the probe never raises past its boundary — every launch result is
classified, `NoResponse` exactly for launch failure, empty output, or a
negative-indicator marker, and only outputs free of those conditions
reach the extraction path, yielding `Value (extract output)`. -/
theorem C5_probe_total_and_classified :
    (∀ r : LaunchResult, probeOutcome r = .NoResponse ∨ ∃ v, probeOutcome r = .Value v) ∧
    (∀ r : LaunchResult, probeOutcome r = .NoResponse ↔
       r = .failure ∨ ∃ o, r = .success o ∧ (o = "" ∨ containsNegativeMarker o = true)) ∧
    (∀ r : LaunchResult, ∀ v, probeOutcome r = .Value v →
       ∃ o, r = .success o ∧ o ≠ "" ∧ containsNegativeMarker o = false ∧ v = extract o) := by
  refine ⟨?_, ?_, ?_⟩
  · intro r
    cases r with
    | failure => exact Or.inl rfl
    | success o =>
      rw [probeOutcome_success_cases]
      by_cases h0 : o = ""
      · simp [h0]
      · by_cases hm : containsNegativeMarker o
        · simp [h0, hm]
        · exact Or.inr ⟨extract o, by simp [h0, hm]⟩
  · intro r
    cases r with
    | failure => exact iff_of_true rfl (Or.inl rfl)
    | success o =>
      rw [probeOutcome_success_cases]
      by_cases h0 : o = ""
      · simp [h0]
      · by_cases hm : containsNegativeMarker o
        · simp [h0, hm]
        · simp [h0, hm]
  · intro r v h
    cases r with
    | failure => exact ProbeOutcome.noConfusion h
    | success o =>
      rw [probeOutcome_success_cases] at h
      by_cases h0 : o = ""
      · rw [if_pos h0] at h
        exact absurd h (by simp)
      · rw [if_neg h0] at h
        by_cases hm : containsNegativeMarker o
        · rw [if_pos hm] at h
          exact absurd h (by simp)
        · rw [if_neg hm] at h
          refine ⟨o, rfl, h0, by simpa using hm, ?_⟩
          cases h
          rfl

/-- C5 witness: a healthy output reaches the extraction path, a marker
output does not. -/
theorem C5_probe_witness :
    (∃ o, LaunchResult.success "SNMPv2 STRING: \"PL-1000\"" = .success o ∧ o ≠ "" ∧
       containsNegativeMarker o = false ∧ "PL-1000" = extract o) ∧
    probeOutcome (.success "Timeout: No Response from 10.30.6.9") = .NoResponse :=
  ⟨C5_probe_total_and_classified.2.2 (.success "SNMPv2 STRING: \"PL-1000\"") "PL-1000" (by decide),
   (C5_probe_total_and_classified.2.1 (.success "Timeout: No Response from 10.30.6.9")).mpr
     (Or.inr ⟨_, rfl, Or.inr (by decide)⟩)⟩

/-- C6 counterexample: the claim as stated is false of the program.  The
input `"1.2.3.4\n"` does not have the shape `A.B.C.D` or `A.B.C.D/mask`,
yet the `.NET` `$` anchor matches before the trailing newline, so the
code accepts it, derives base network `"1.2.3\n"`, and dispatches 254
probes instead of failing with `InvalidSpec`. -/
theorem C6_trailing_newline_counterexample :
    ¬ ShapedSpec "1.2.3.4\n" ∧
    resolve "1.2.3.4\n" = .ok "1.2.3\n" ∧
    probeInvocations "1.2.3.4\n" = 254 := by
  have hres : resolve "1.2.3.4\n" = .ok "1.2.3\n" := by rfl
  refine ⟨not_shaped_trailing_newline, hres, ?_⟩
  show (scanTargets "1.2.3.4\n").length = 254
  unfold scanTargets
  rw [hres]
  exact targets_length "1.2.3\n"

/-- C6 (amended): any input without the shape `A.B.C.D` or `A.B.C.D/mask`
— allowing one trailing newline, which the `.NET` end anchor tolerates —
fails resolution with `InvalidSpec` before any probing: the scan
dispatches to zero targets, so zero probe invocations occur. -/
theorem C6_nonshaped_rejected_before_probing (spec : String) (h : ¬ ShapedSpecNL spec) :
    resolve spec = .error .InvalidSpec ∧ scanTargets spec = [] ∧ probeInvocations spec = 0 := by
  have hv : validNetworkSpec spec = false := by
    cases hvv : validNetworkSpec spec
    · rfl
    · exact absurd (shapedNL_of_valid hvv) h
  refine ⟨?_, ?_, ?_⟩
  · simp [resolve, hv]
  · simp [scanTargets, resolve, hv]
  · simp [probeInvocations, scanTargets, resolve, hv]

/-- C6 witness: the three-octet input `10.30.6` is not shaped (with or
without a trailing newline), is rejected, and triggers zero probes. -/
theorem C6_rejected_witness :
    resolve "10.30.6" = .error .InvalidSpec ∧ probeInvocations "10.30.6" = 0 := by
  have h : ¬ ShapedSpecNL "10.30.6" := fun hs => absurd (valid_of_shapedNL hs) (by decide)
  exact ⟨(C6_nonshaped_rejected_before_probing "10.30.6" h).1,
         (C6_nonshaped_rejected_before_probing "10.30.6" h).2.2⟩

/-- C7: resolution of a valid specifier discards the fourth octet and any
mask suffix, and the sweep enumerates exactly the 254 targets
`BasePrefix.1` .. `BasePrefix.254` — regardless of the mask — with the
`.0` and `.255` addresses never probed. -/
theorem C7_base_and_enumeration :
    (∀ a b c d : String, DigitString a → DigitString b → DigitString c → DigitString d →
       resolve (a ++ "." ++ b ++ "." ++ c ++ "." ++ d) = .ok (a ++ "." ++ b ++ "." ++ c) ∧
       ∀ m : String, DigitString m →
         resolve (a ++ "." ++ b ++ "." ++ c ++ "." ++ d ++ "/" ++ m) =
           .ok (a ++ "." ++ b ++ "." ++ c)) ∧
    (∀ base : String, (targets base).length = 254) ∧
    (∀ base : String, ∀ n : Nat, 1 ≤ n → n ≤ 254 →
       base ++ "." ++ natToString n ∈ targets base) ∧
    (∀ base : String, ∀ t ∈ targets base,
       ∃ n : Nat, 1 ≤ n ∧ n ≤ 254 ∧ t = base ++ "." ++ natToString n) ∧
    (∀ base : String, base ++ ".0" ∉ targets base ∧ base ++ ".255" ∉ targets base) := by
  refine ⟨?_, targets_length, fun base n h1 h2 => mem_targets_of_host base h1 h2,
    fun base t ht => mem_targets_elim base ht, ?_⟩
  · intro a b c d ha hb hc hd
    constructor
    · have hval : validNetworkSpec (a ++ "." ++ b ++ "." ++ c ++ "." ++ d) = true :=
        valid_of_shaped ⟨a, b, c, d, ha, hb, hc, hd, Or.inl rfl⟩
      simp only [resolve, hval, if_true]
      rw [baseNetwork_noMask a b c d ha hb hc hd]
    · intro m hm
      have hval : validNetworkSpec (a ++ "." ++ b ++ "." ++ c ++ "." ++ d ++ "/" ++ m) = true :=
        valid_of_shaped ⟨a, b, c, d, ha, hb, hc, hd, Or.inr ⟨m, hm, rfl⟩⟩
      simp only [resolve, hval, if_true]
      rw [baseNetwork_mask a b c d m ha hb hc hd]
  · intro base
    have h0 : base ++ ".0" = base ++ "." ++ "0" := by
      apply String.ext
      simp [String.data_append]
    have h255 : base ++ ".255" = base ++ "." ++ "255" := by
      apply String.ext
      simp [String.data_append]
    constructor
    · rw [h0]
      exact suffix_not_mem_targets base (Or.inr (by decide))
    · rw [h255]
      exact suffix_not_mem_targets base (Or.inl (by decide))

/-- C7 witness: `10.30.6.0/24` resolves to `10.30.6` and host 37 is among
the enumerated targets. -/
theorem C7_base_witness :
    resolve ("10" ++ "." ++ "30" ++ "." ++ "6" ++ "." ++ "0" ++ "/" ++ "24") =
      .ok ("10" ++ "." ++ "30" ++ "." ++ "6") ∧
    "10.30.6" ++ "." ++ natToString 37 ∈ targets "10.30.6" :=
  ⟨(C7_base_and_enumeration.1 "10" "30" "6" "0" ⟨by decide, by decide⟩ ⟨by decide, by decide⟩
      ⟨by decide, by decide⟩ ⟨by decide, by decide⟩).2 "24" ⟨by decide, by decide⟩,
   C7_base_and_enumeration.2.2.1 "10.30.6" 37 (by omega) (by omega)⟩

/-- C8: both sweep strategies attempt every input target exactly once and
produce exactly one outcome per target, each tagged with its originating
address; over the 254-target sweep that is exactly 254 outcomes with
pairwise-distinct address tags, none missing and none duplicated. -/
theorem C8_sweep_exactly_once (f : String → ProbeOutcome) (ts : List String) :
    (sweepPrimary f ts).map Prod.fst = ts ∧
    (sweepFallback f ts).map Prod.fst = ts ∧
    (sweepPrimary f ts).length = ts.length ∧
    (sweepFallback f ts).length = ts.length ∧
    (∀ base : String,
      (sweepPrimary f (targets base)).length = 254 ∧
      ((sweepPrimary f (targets base)).map Prod.fst).Nodup ∧
      (sweepFallback f (targets base)).length = 254 ∧
      ((sweepFallback f (targets base)).map Prod.fst).Nodup) := by
  have hmapfst : ∀ us : List String, (us.map (fun t => (t, f t))).map Prod.fst = us := by
    intro us
    induction us with
    | nil => rfl
    | cons u us ih => simp only [List.map_cons, ih]
  have hfb : ∀ us : List String, sweepFallback f us = us.map (fun t => (t, f t)) :=
    fun us => submitJobs_eq_map f us
  refine ⟨hmapfst ts, by rw [hfb]; exact hmapfst ts, by simp [sweepPrimary],
    by rw [hfb]; simp, ?_⟩
  intro base
  refine ⟨?_, ?_, ?_, ?_⟩
  · unfold sweepPrimary
    rw [List.length_map]
    exact targets_length base
  · rw [show sweepPrimary f (targets base) = (targets base).map (fun t => (t, f t)) from rfl,
      hmapfst]
    exact targets_nodup base
  · rw [hfb, List.length_map]
    exact targets_length base
  · rw [hfb, hmapfst]
    exact targets_nodup base

/-- C9: at every reachable instant of the bounded pool (under any cap,
in particular the default `maxThreads = 100` passed as the primary
strategy's throttle), the number of probes in flight never exceeds the
cap. -/
theorem C9_inflight_never_exceeds_cap (cap : Nat) (ts : List String) (s : PoolState)
    (h : PoolReachable cap ts s) :
    s.running ≤ cap ∧ throttleLimitArg = maxThreads ∧ maxThreads = 100 :=
  ⟨poolReachable_cap h, rfl, rfl⟩

/-- C9 witness: the initial state of the 254-target sweep under the
default cap is reachable and within the cap. -/
theorem C9_inflight_witness :
    (⟨targets "10.30.6", 0, 0⟩ : PoolState).running ≤ 100 ∧ throttleLimitArg = maxThreads :=
  ⟨(C9_inflight_never_exceeds_cap 100 (targets "10.30.6") _ PoolReachable.init).1,
   (C9_inflight_never_exceeds_cap 100 (targets "10.30.6") _ PoolReachable.init).2.1⟩

/-- C10: negative-indicator classification is case-insensitive substring
matching anywhere in the output — `containsNegativeMarker` fires exactly
when a segment equal, up to letter case, to `Timeout` or `No Such Object`
occurs — and any such output is classified `NoResponse` and contributes
no record, even when it also carries a well-formed `STRING:` value. -/
theorem C10_marker_case_insensitive (s ip : String)
    (h : ContainsCI "Timeout" s ∨ ContainsCI "No Such Object" s) :
    snmpCheckRecord ip (.success s) = none ∧
    probeOutcome (.success s) = .NoResponse ∧
    (containsNegativeMarker s = true ↔
      ContainsCI "Timeout" s ∨ ContainsCI "No Such Object" s) := by
  have hm : containsNegativeMarker s = true := (containsNegativeMarker_iff s).mpr h
  refine ⟨?_, ?_, containsNegativeMarker_iff s⟩
  · rw [snmpCheckRecord_success]
    by_cases h0 : s = ""
    · simp [h0]
    · simp [h0, hm]
  · rw [probeOutcome_success_cases]
    by_cases h0 : s = ""
    · simp [h0]
    · simp [h0, hm]

/-- C10 witness: a mixed-case `tImEoUt` output that also carries a
well-formed `STRING:` segment yields no record. -/
theorem C10_marker_witness :
    snmpCheckRecord "10.30.6.9" (.success "tImEoUt: no response STRING: \"Model X\"") = none ∧
    probeOutcome (.success "tImEoUt: no response STRING: \"Model X\"") = .NoResponse :=
  ⟨(C10_marker_case_insensitive "tImEoUt: no response STRING: \"Model X\"" "10.30.6.9"
      (Or.inl ⟨[], "tImEoUt".data, ": no response STRING: \"Model X\"".data, by decide,
        by unfold EqCI; decide⟩)).1,
   (C10_marker_case_insensitive "tImEoUt: no response STRING: \"Model X\"" "10.30.6.9"
      (Or.inl ⟨[], "tImEoUt".data, ": no response STRING: \"Model X\"".data, by decide,
        by unfold EqCI; decide⟩)).2.1⟩

end SnmpScan
